import Mathlib

set_option autoImplicit false

/-!
Shallow embedding of the experience-replay sampler of the `gcg` repository.

The embedding translates `src/gcg/sampler/sampler.py` (class `Sampler`),
`src/gcg/policies/exploration_strategies/epsilon_greedy_strategy.py`
(class `EpsilonGreedyStrategy`) and the bulk loader
`EvalOffline._load_data` of `sandbox/gkahn/gcg/evaluation/eval_offline.py`
(identical in `src/sandbox/rowan/scripts/eval_offline.py`).

The class `ReplayPool` (module `gcg/sampler/replay_pool.py`) is referenced by
the sampler but its source file is not part of the reviewed sources; its
operations are modelled from the specification (each such definition carries a
doc comment starting `Modelled from the spec:`).

Conventions of the embedding:
  * observations, actions and environment-info entries are opaque values,
    modelled as natural numbers (`0` is the zero/padding observation);
  * floats are modelled as rationals; the float value NaN that the sampler
    stores for `est_value` under random actions is modelled by the dedicated
    constructor `Val.nan`;
  * `np.log` is an uninterpreted function, passed as an explicit parameter
    `log`, so the symbolic form of each log-probability is preserved;
  * randomness (`np.random.random`, `action_space.sample()`) is passed in as
    explicit data;
  * a Python exception is an `Except.error`;
  * the side effects of one `Sampler.step` call are recorded as an ordered
    `List Event` trace, so that ordering claims can be stated.
-/

/-- Observations, modelled as opaque identifiers; `0` is the padding frame. -/
abbrev Obs := Nat

/-- Actions, modelled as opaque identifiers. -/
abbrev Act := Nat

/-- A per-step `env_info` mapping; `dict.update` is modelled as appending the
entries of the second mapping. -/
abbrev Info := List Nat

/-- A float that is either a number or NaN (`Sampler.step` stores
`est_value = np.nan` for random actions). -/
inductive Val where
  | nan : Val
  | num : ℚ → Val
deriving DecidableEq, Repr

/-- The action-space variants that `Sampler.step` distinguishes with
`isinstance`: `Discrete` (with its `flat_dim`), `Box` (with `low`/`high`
bounds) and anything else. -/
inductive ActionSpace where
  | discrete (flatDim : Nat)
  | box (low high : List ℚ)
  | other
deriving DecidableEq, Repr

/-- One completed transition of a replay pool: the observation written by
`store_observation` together with the fields written by `store_effect`. -/
structure StoredStep where
  stepIndex : Nat
  obs : Obs
  action : Act
  reward : ℚ
  done : Bool
  envInfo : Info
  estValue : Val
  logprob : ℚ
deriving DecidableEq, Repr

/-- A pre-recorded rollout record, with the per-field parallel arrays named in
the spec's rollout-source interface: observations, actions, rewards, dones,
logprobs and env_infos. -/
structure Rollout where
  observations : List Obs
  actions : List Act
  rewards : List ℚ
  dones : List Bool
  logprobs : List ℚ
  envInfos : List Info
deriving DecidableEq, Repr

/-- Modelled from the spec: the replay pool (`gcg/sampler/replay_pool.py`,
class `ReplayPool`, not among the reviewed sources).  The pool keeps the
completed transitions in order, the transition opened by `store_observation`
but not yet completed by `store_effect`, and the rollouts ingested in bulk via
`store_rollout`. -/
structure ReplayPool where
  capacity : Nat
  obsHistoryLen : Nat
  steps : List StoredStep
  pending : Option (Nat × Obs)
  storedRollouts : List (Nat × Rollout)
deriving DecidableEq, Repr

instance : Inhabited ReplayPool :=
  ⟨{ capacity := 0, obsHistoryLen := 0, steps := [], pending := none, storedRollouts := [] }⟩

/-- Modelled from the spec: `ReplayPool.store_observation` writes the
observation half of a new transition; the reward/done/action fields stay
undefined until `store_effect` completes it. -/
def ReplayPool.store_observation (p : ReplayPool) (stepIndex : Nat) (o : Obs) : ReplayPool :=
  { p with pending := some (stepIndex, o) }

/-- Modelled from the spec: `ReplayPool.store_effect` completes the most
recently opened transition with `(action, reward, done, env_info, est_value,
logprob)`.  With no opened transition the call has nothing to complete. -/
def ReplayPool.store_effect (p : ReplayPool) (a : Act) (r : ℚ) (d : Bool) (e : Info)
    (v : Val) (lp : ℚ) : ReplayPool :=
  match p.pending with
  | some (idx, o) =>
      { p with steps := p.steps ++ [⟨idx, o, a, r, d, e, v, lp⟩], pending := none }
  | none => p

/-- The observations of the current open episode: the maximal trailing run of
completed transitions with `done = false`, in step order. -/
def openEpisodeObs (steps : List StoredStep) : List Obs :=
  ((steps.reverse.takeWhile fun s => !s.done).map StoredStep.obs).reverse

/-- The last `h` frames of `l`, zero-padded at the front when fewer than `h`
frames are available. -/
def lastFrames (h : Nat) (l : List Obs) : List Obs :=
  List.replicate (h - l.length) 0 ++ l.drop (l.length - h)

/-- Modelled from the spec: `ReplayPool.encode_recent_observation` returns the
history-stacked view of the last `obs_history_len` frames ending at the
pending observation, never crossing an episode boundary backward and
zero-padding missing frames. -/
def ReplayPool.encode_recent_observation (p : ReplayPool) : List Obs :=
  match p.pending with
  | some (_, o) => lastFrames p.obsHistoryLen (openEpisodeObs p.steps ++ [o])
  | none => lastFrames p.obsHistoryLen (openEpisodeObs p.steps)

/-- Marks the most recent completed transition as `done`. -/
def markLastDone (l : List StoredStep) : List StoredStep :=
  match l.reverse with
  | [] => []
  | s :: rest => ({ s with done := true } :: rest).reverse

/-- Modelled from the spec: `ReplayPool.force_done` marks the current open
episode terminated without a true terminal reward, so that future history
views do not bleed across the reset boundary. -/
def ReplayPool.force_done (p : ReplayPool) : ReplayPool :=
  { p with steps := markLastDone p.steps }

/-- Modelled from the spec: `ReplayPool.trash_current_rollout` rewinds the
pool to discard the in-progress (not yet `done`) episode and returns the
number of steps removed. -/
def ReplayPool.trash_current_rollout (p : ReplayPool) : Nat × ReplayPool :=
  let trailing := p.steps.reverse.takeWhile fun s => !s.done
  (trailing.length,
   { p with steps := (p.steps.reverse.drop trailing.length).reverse, pending := none })

/-- Modelled from the spec: `ReplayPool.store_rollout` ingests a complete
pre-recorded rollout starting at `start_index`, bypassing the two-phase
protocol. -/
def ReplayPool.store_rollout (p : ReplayPool) (startIndex : Nat) (r : Rollout) : ReplayPool :=
  { p with storedRollouts := p.storedRollouts ++ [(startIndex, r)] }

/-- Modelled from the spec: `ReplayPool.__len__` is the number of transitions
held, live ones plus bulk-ingested ones. -/
def ReplayPool.len (p : ReplayPool) : Nat :=
  p.steps.length + (p.storedRollouts.map fun sr => sr.2.dones.length).sum

/-- The vectorized environment executor consumed by the sampler
(`VecEnvExecutor`), an external collaborator: its behaviour is carried as
data/functions. -/
structure VecEnv where
  actionSpace : ActionSpace
  stepFn : List Act → List Obs × List ℚ × List Bool × List Info
  resetFn : List Obs
  currentEpisodeSteps : List Nat
  sampleFn : Nat → Act

/-- The decision-making collaborator (policy), reduced to the `get_actions`
contract the sampler consumes. -/
structure Policy where
  getActions : List Nat → List Nat → List (List Obs) → Bool →
    List Act × List Val × List ℚ × List Info

/-- The state of a `Sampler` object: its replay pools, its vectorized
environment and the current observations recorded for the next step. -/
structure SamplerState where
  nEnvs : Nat
  pools : List ReplayPool
  vecEnv : VecEnv
  currObservations : List Obs

/-- Python exceptions raised by the embedded code. -/
inductive SamplerError where
  | assertionError
  | notImplementedError
deriving DecidableEq, Repr

/-- One observable side effect of a `Sampler.step` call, in the order the call
performs them. -/
inductive Event where
  | storeObservation (envIdx stepIdx : Nat) (obs : Obs)
  | encodeRecent (envIdx : Nat)
  | getActions
  | envStep
  | resetGetAction
  | storeEffect (envIdx : Nat) (action : Act) (estValue : Val) (logprob : ℚ)
deriving DecidableEq, Repr

/-- First phase of `Sampler.step`: for each `(replay_pool, observation)` pair
(the zip of the pools with the current observations), store the observation
at index `step + i` and obtain the encoded history view. -/
def storeObsPhase (stepIdx : Nat) : Nat → List (ReplayPool × Obs) →
    List ReplayPool × List (List Obs) × List Event
  | _, [] => ([], [], [])
  | i, (p, o) :: rest =>
    let p1 := p.store_observation (stepIdx + i) o
    let enc := p1.encode_recent_observation
    let r := storeObsPhase stepIdx (i + 1) rest
    (p1 :: r.1, enc :: r.2.1, Event.storeObservation i (stepIdx + i) o :: Event.encodeRecent i :: r.2.2)

/-- The log-probability `Sampler.step` assigns to a uniformly random action:
`-np.log(flat_dim)` for a `Discrete` space and `-np.sum(np.log(high - low))`
for a `Box` space (the `other` case raises before this value is formed). -/
def uniformRandomLogprob (log : ℚ → ℚ) : ActionSpace → ℚ
  | ActionSpace.discrete flatDim => -(log flatDim)
  | ActionSpace.box low high => -(List.zipWith (fun hi lo => log (hi - lo)) high low).sum
  | ActionSpace.other => 0

/-- The action-selection phase of `Sampler.step`: with `take_random_actions`,
sample one action per environment from the action space, set every
`est_value` to NaN and every `logprob` to the uniform log-density (raising
`NotImplementedError` for an unsupported space); otherwise ask the policy via
`get_actions`. -/
def chooseActions (policy : Policy) (log : ℚ → ℚ) (s : SamplerState) (stepIdx : Nat)
    (takeRandomActions explore : Bool) (encoded : List (List Obs)) :
    Except SamplerError (List Act × List Val × List ℚ × List Info) :=
  if takeRandomActions then
    match s.vecEnv.actionSpace with
    | ActionSpace.other => Except.error SamplerError.notImplementedError
    | sp =>
        Except.ok ((List.range s.nEnvs).map s.vecEnv.sampleFn,
          List.replicate s.nEnvs Val.nan,
          List.replicate s.nEnvs (uniformRandomLogprob log sp),
          List.replicate s.nEnvs ([] : Info))
  else
    Except.ok (policy.getActions (List.range' stepIdx s.nEnvs) s.vecEnv.currentEpisodeSteps
      encoded explore)

/-- `env_info.update(action_info)` over the zip of the two lists; entries of
the first list beyond the zip keep their value. -/
def updateInfos : List Info → List Info → List Info
  | es, [] => es
  | [], _ :: _ => []
  | e :: es, a :: as => (e ++ a) :: updateInfos es as

/-- Last phase of `Sampler.step`: store each `(action, reward, done, env_info,
est_value, logprob)` effect into the respective pool, over the zip of all
seven lists; pools beyond the zip are untouched. -/
def storeEffects : Nat → List ReplayPool → List Act → List ℚ → List Bool → List Info →
    List Val → List ℚ → List ReplayPool × List Event
  | i, p :: ps, a :: as, r :: rs, d :: ds, e :: es, v :: vs, lp :: lps =>
    let rest := storeEffects (i + 1) ps as rs ds es vs lps
    (p.store_effect a r d e v lp :: rest.1, Event.storeEffect i a v lp :: rest.2)
  | _, ps, _, _, _, _, _, _ => (ps, [])

/-- `Sampler.step`: one control tick.  Sequentially: store the current
observation of every environment and encode its history view; obtain one
action per environment (random or from the policy); step the vectorized
environment; if any environment reports done, call the policy's
`reset_get_action`; store each effect into the respective pool; finally
record the next observations.  The ordered event trace is returned with the
new state. -/
def Sampler.step (policy : Policy) (log : ℚ → ℚ) (s : SamplerState) (stepIdx : Nat)
    (takeRandomActions explore : Bool) :
    Except SamplerError (SamplerState × List Event) :=
  let zipped := s.pools.zip s.currObservations
  let obsPhase := storeObsPhase stepIdx 0 zipped
  let pools1 := obsPhase.1 ++ s.pools.drop zipped.length
  match chooseActions policy log s stepIdx takeRandomActions explore obsPhase.2.1 with
  | Except.error e => Except.error e
  | Except.ok (actions, estValues, logprobs, actionInfos) =>
    let envOut := s.vecEnv.stepFn actions
    let nextObs := envOut.1
    let rewards := envOut.2.1
    let dones := envOut.2.2.1
    let envInfos := updateInfos envOut.2.2.2 actionInfos
    let doneEvents := if dones.any id then [Event.resetGetAction] else []
    let effPhase := storeEffects 0 pools1 actions rewards dones envInfos estValues logprobs
    Except.ok ({ s with pools := effPhase.1, currObservations := nextObs },
      obsPhase.2.2 ++ [Event.getActions, Event.envStep] ++ doneEvents ++ effPhase.2)

/-- The event trace of a `Sampler.step` call (empty when the call raises). -/
def stepTrace (policy : Policy) (log : ℚ → ℚ) (s : SamplerState) (stepIdx : Nat)
    (takeRandomActions explore : Bool) : List Event :=
  match Sampler.step policy log s stepIdx takeRandomActions explore with
  | Except.ok (_, tr) => tr
  | Except.error _ => []

/-- `Sampler.trash_current_rollouts`: trash the in-progress rollout of every
pool, accumulating the number of steps removed. -/
def Sampler.trash_current_rollouts (s : SamplerState) : Nat × SamplerState :=
  let res := s.pools.foldl (fun acc p =>
    let r := p.trash_current_rollout
    (acc.1 + r.1, acc.2 ++ [r.2])) ((0 : Nat), ([] : List ReplayPool))
  (res.1, { s with pools := res.2 })

/-- `Sampler.reset`: reset the vectorized environment, record the fresh
observations as the current ones, and `force_done` every pool. -/
def Sampler.reset (s : SamplerState) : SamplerState :=
  { s with currObservations := s.vecEnv.resetFn,
           pools := s.pools.map ReplayPool.force_done }

/-- `Sampler.__init__`: asserts `n_envs == 1`, then creates one replay pool of
capacity `replay_pool_size // n_envs` per environment.  The constructor does
not set `_curr_observations` (only `reset` does); the unset attribute is
modelled as the empty list. -/
def Sampler.init (env : VecEnv) (nEnvs replayPoolSize obsHistoryLen : Nat) :
    Except SamplerError SamplerState :=
  if nEnvs = 1 then
    Except.ok
      { nEnvs := nEnvs,
        pools := List.replicate nEnvs
          { capacity := replayPoolSize / nEnvs,
            obsHistoryLen := obsHistoryLen,
            steps := [], pending := none, storedRollouts := [] },
        vecEnv := env,
        currObservations := [] }
  else
    Except.error SamplerError.assertionError

/-- `Sampler.can_sample`: `np.any` over the pools' own `can_sample` results
(`ReplayPool.can_sample` is not among the reviewed sources, so it is passed in
as an abstract predicate `f`). -/
def Sampler.can_sample (f : ReplayPool → Bool) (s : SamplerState) : Bool :=
  (s.pools.map f).any id

/-- Python's slice `l[:d]` for an `int` bound `d`: the first `d` elements when
`d ≥ 0`, everything but the last `|d|` elements when `d < 0`. -/
def pythonTake {α : Type} (d : Int) (l : List α) : List α :=
  if 0 ≤ d then l.take d.toNat else l.take (l.length - (-d).toNat)

/-- The truncation `Sampler.add_rollouts` applies when the step budget is
reached: the five keys `observations, actions, rewards, dones, logprobs` are
sliced to `[:diff]`; `env_infos` is not among the sliced keys. -/
def trimRollout (d : Int) (r : Rollout) : Rollout :=
  { observations := pythonTake d r.observations,
    actions := pythonTake d r.actions,
    rewards := pythonTake d r.rewards,
    dones := pythonTake d r.dones,
    logprobs := pythonTake d r.logprobs,
    envInfos := r.envInfos }

/-- One `store_rollout` call issued by bulk ingestion: the pool it goes to,
the `start_index` passed, and the (possibly trimmed) rollout stored. -/
structure StoreCall where
  poolIdx : Nat
  startIndex : Nat
  rollout : Rollout
deriving DecidableEq, Repr

/-- The inner loop of `Sampler.add_rollouts` over one file's rollouts:
`for rollout, replay_pool in zip(rollouts, cycle(self._replay_pools))`.
`k` is the number of pools, `poolIdx` the persistent position of the cycling
iterator, `step` the running transition counter.  When
`step + len(rollout['dones']) >= max_to_add`, the rollout is trimmed to
`[:max_to_add - step]`, stored, and `done_adding` stops the iteration. -/
def addRolloutsInFile (k : Nat) (maxToAdd : Option Nat) :
    List Rollout → Nat → Nat → List StoreCall × Nat × Nat × Bool
  | [], poolIdx, step => ([], poolIdx, step, false)
  | r :: rs, poolIdx, step =>
    match maxToAdd with
    | some m =>
      if m ≤ step + r.dones.length then
        let r1 := trimRollout ((m : Int) - (step : Int)) r
        ([⟨poolIdx % k, step, r1⟩], poolIdx + 1, step + r1.dones.length, true)
      else
        let rest := addRolloutsInFile k maxToAdd rs (poolIdx + 1) (step + r.dones.length)
        (⟨poolIdx % k, step, r⟩ :: rest.1, rest.2)
    | none =>
      let rest := addRolloutsInFile k none rs (poolIdx + 1) (step + r.dones.length)
      (⟨poolIdx % k, step, r⟩ :: rest.1, rest.2)

/-- The outer loop of `Sampler.add_rollouts` over the rollout files; once
`done_adding` is set mid-file, no further rollouts or files are ingested. -/
def addRolloutsFiles (k : Nat) (maxToAdd : Option Nat) :
    List (List Rollout) → Nat → Nat → List StoreCall × Nat × Bool
  | [], _, step => ([], step, false)
  | f :: fs, poolIdx, step =>
    let res := addRolloutsInFile k maxToAdd f poolIdx step
    if res.2.2.2 then (res.1, res.2.2.1, true)
    else
      let rest := addRolloutsFiles k maxToAdd fs res.2.1 res.2.2.1
      (res.1 ++ rest.1, rest.2)

/-- Applies a list of `store_rollout` calls to the pools of a sampler. -/
def applyCalls (s : SamplerState) (calls : List StoreCall) : SamplerState :=
  { s with pools := calls.foldl (fun ps c =>
      ps.set c.poolIdx ((ps.getD c.poolIdx default).store_rollout c.startIndex c.rollout)) s.pools }

/-- `Sampler.add_rollouts`: the running counter starts at the total length of
the pools, the rollouts of each (already parsed) file are assigned to the
pools in cycling order, and each is stored at the current counter value.
Returns the new state together with the ordered list of `store_rollout`
calls issued. -/
def Sampler.add_rollouts (s : SamplerState) (files : List (List Rollout))
    (maxToAdd : Option Nat) : SamplerState × List StoreCall :=
  let start := (s.pools.map ReplayPool.len).sum
  let res := addRolloutsFiles s.pools.length maxToAdd files 0 start
  (applyCalls s res.1, res.1)

/-- The scan loop of `EvalOffline._load_data`: try to load each file; a file
that loads contributes its rollouts and a success, a file that raises
contributes a failure and is skipped.  The loader stands for
`mypickle.load(fname)['rollouts']`, with `none` for a raising file. -/
def loadScan (loader : Nat → Option (List Rollout)) : List Nat → List Rollout × Nat × Nat
  | [] => ([], 0, 0)
  | f :: fs =>
    let rest := loadScan loader fs
    match loader f with
    | some rs => (rs ++ rest.1, rest.2.1 + 1, rest.2.2)
    | none => (rest.1, rest.2.1, rest.2.2 + 1)

/-- The success ratio `EvalOffline._load_data` reports:
`100. * num_load_success / float(num_load_success + num_load_fail)`. -/
def reportedRatio (loader : Nat → Option (List Rollout)) (files : List Nat) : ℚ :=
  let res := loadScan loader files
  (100 * res.2.1 : ℚ) / ((res.2.1 : ℚ) + (res.2.2 : ℚ))

/-- The storing loop of `EvalOffline._load_data`: `store_rollout(curr_len,
rollout)` for every loaded rollout, with `curr_len` advancing by
`len(rollout['dones'])`. -/
def storeAll : Nat → List Rollout → List (Nat × Rollout)
  | _, [] => []
  | cur, r :: rs => (cur, r) :: storeAll (cur + r.dones.length) rs

/-- `EvalOffline._load_data`: scan all files (skipping failures), then store
every loaded rollout into one replay pool at consecutive start indices.
Returns the `store_rollout` calls and the success/failure counts. -/
def loadData (loader : Nat → Option (List Rollout)) (files : List Nat) :
    List (Nat × Rollout) × Nat × Nat :=
  let res := loadScan loader files
  (storeAll 0 res.1, res.2.1, res.2.2)

/-- `EpsilonGreedyStrategy`: the piecewise schedule (module
`gcg/misc/schedules.py`, not among the reviewed sources) is carried as an
abstract function of the time step, and `action_space.sample()` as the value
`sampleDraw`. -/
structure EpsilonGreedyStrategy where
  schedule : Nat → ℚ
  sampleDraw : Act

/-- `EpsilonGreedyStrategy.reset`: `pass`. -/
def EpsilonGreedyStrategy.reset (s : EpsilonGreedyStrategy) : EpsilonGreedyStrategy := s

/-- `EpsilonGreedyStrategy.add_exploration`: with `r` the uniform draw of
`np.random.random()`, return a fresh action-space sample when
`r < schedule.value(t)`, the given action otherwise. -/
def EpsilonGreedyStrategy.add_exploration (s : EpsilonGreedyStrategy) (r : ℚ) (t : Nat)
    (action : Act) : Act :=
  if r < s.schedule t then s.sampleDraw else action

/-- The phase number of each event in the order `Sampler.step` performs them:
observations/encodings, action selection, environment step, notify-on-done,
effect storage. -/
def eventPhase : Event → Nat
  | Event.storeObservation _ _ _ => 0
  | Event.encodeRecent _ => 0
  | Event.getActions => 1
  | Event.envStep => 2
  | Event.resetGetAction => 3
  | Event.storeEffect _ _ _ _ => 4

/-- The phase number each event would have under the order the specification
describes (notify-on-done only after the effects are stored). -/
def claimedPhase : Event → Nat
  | Event.storeObservation _ _ _ => 0
  | Event.encodeRecent _ => 0
  | Event.getActions => 1
  | Event.envStep => 2
  | Event.storeEffect _ _ _ _ => 3
  | Event.resetGetAction => 4

/-- The number of transitions a `store_rollout` call contributes
(`len(rollout['dones'])`). -/
def callLen (c : StoreCall) : Nat := c.rollout.dones.length

/-- The five sliced per-field arrays of a rollout have one common length. -/
def equalFieldLens (r : Rollout) : Prop :=
  r.observations.length = r.dones.length ∧ r.actions.length = r.dones.length ∧
    r.rewards.length = r.dones.length ∧ r.logprobs.length = r.dones.length

instance (r : Rollout) : Decidable (equalFieldLens r) := by
  unfold equalFieldLens; infer_instance

/-! Concrete fixtures for counterexamples and witnesses. -/

/-- A fresh pool of capacity 10 with history length 2. -/
def cPoolEmpty : ReplayPool :=
  { capacity := 10, obsHistoryLen := 2, steps := [], pending := none, storedRollouts := [] }

/-- A one-environment vectorized environment over a `Discrete(3)` space that
always returns observation 5, reward 1 and `done = True`. -/
def cVecEnv : VecEnv :=
  { actionSpace := ActionSpace.discrete 3,
    stepFn := fun _ => ([5], [1], [true], [[]]),
    resetFn := [4],
    currentEpisodeSteps := [0],
    sampleFn := fun _ => 2 }

/-- The same environment with an action space that is neither `Discrete` nor
`Box`. -/
def cVecEnvOther : VecEnv := { cVecEnv with actionSpace := ActionSpace.other }

/-- A policy that always proposes action 1 with value 0 and logprob 0. -/
def cPolicy : Policy := { getActions := fun _ _ _ _ => ([1], [Val.num 0], [0], [[]]) }

/-- A stand-in for `np.log`. -/
def cLog : ℚ → ℚ := fun _ => 0

/-- A sampler over `cVecEnv` with one fresh pool, current observation 7. -/
def cState : SamplerState :=
  { nEnvs := 1, pools := [cPoolEmpty], vecEnv := cVecEnv, currObservations := [7] }

/-- `cState` over the unsupported action space. -/
def cStateOther : SamplerState := { cState with vecEnv := cVecEnvOther }

/-- The pool of `cState` after one policy-driven step. -/
def cPoolAfter : ReplayPool :=
  { capacity := 10, obsHistoryLen := 2,
    steps := [{ stepIndex := 0, obs := 7, action := 1, reward := 1, done := true,
                envInfo := [], estValue := Val.num 0, logprob := 0 }],
    pending := none, storedRollouts := [] }

/-- The state after one policy-driven step from `cState`. -/
def cStateAfter : SamplerState :=
  { nEnvs := 1, pools := [cPoolAfter], vecEnv := cVecEnv, currObservations := [5] }

/-- The event trace of one policy-driven step from `cState`. -/
def cTrace : List Event :=
  [Event.storeObservation 0 0 7, Event.encodeRecent 0, Event.getActions, Event.envStep,
   Event.resetGetAction, Event.storeEffect 0 1 (Val.num 0) 0]

/-- The pool of `cState` after one random-action step. -/
def cPoolAfterR : ReplayPool :=
  { capacity := 10, obsHistoryLen := 2,
    steps := [{ stepIndex := 0, obs := 7, action := 2, reward := 1, done := true,
                envInfo := [], estValue := Val.nan, logprob := 0 }],
    pending := none, storedRollouts := [] }

/-- The state after one random-action step from `cState`. -/
def cStateAfterR : SamplerState :=
  { nEnvs := 1, pools := [cPoolAfterR], vecEnv := cVecEnv, currObservations := [5] }

/-- The event trace of one random-action step from `cState`. -/
def cTraceR : List Event :=
  [Event.storeObservation 0 0 7, Event.encodeRecent 0, Event.getActions, Event.envStep,
   Event.resetGetAction, Event.storeEffect 0 2 Val.nan 0]

/-- One live (observation, effect) pair with `done = false`. -/
def liveStep (p : ReplayPool) (i : Nat) : ReplayPool :=
  (p.store_observation i i).store_effect 0 0 false [] Val.nan 0

/-- `cPoolEmpty` after 7 un-terminated live steps. -/
def cPool7 : ReplayPool := (List.range 7).foldl liveStep cPoolEmpty

/-- A sampler holding `cPool7`. -/
def cState7 : SamplerState :=
  { nEnvs := 1, pools := [cPool7], vecEnv := cVecEnv, currObservations := [7] }

/-- The pool `Sampler.__init__` builds for `replay_pool_size = 100`,
`n_envs = 1`, history length 2. -/
def cPool100 : ReplayPool :=
  { capacity := 100, obsHistoryLen := 2, steps := [], pending := none, storedRollouts := [] }

/-- The state `Sampler.__init__ (n_envs = 1)` produces over `cVecEnv`. -/
def cInit1 : SamplerState :=
  { nEnvs := 1, pools := [cPool100], vecEnv := cVecEnv, currObservations := [] }

/-- `cPool100` after the first post-reset step. -/
def cPool100After : ReplayPool :=
  { capacity := 100, obsHistoryLen := 2,
    steps := [{ stepIndex := 0, obs := 4, action := 1, reward := 1, done := true,
                envInfo := [], estValue := Val.num 0, logprob := 0 }],
    pending := none, storedRollouts := [] }

/-- The state after reset-then-step from `cInit1`. -/
def cState4After : SamplerState :=
  { nEnvs := 1, pools := [cPool100After], vecEnv := cVecEnv, currObservations := [5] }

/-- The event trace of the first post-reset step from `cInit1`. -/
def cTrace4 : List Event :=
  [Event.storeObservation 0 0 4, Event.encodeRecent 0, Event.getActions, Event.envStep,
   Event.resetGetAction, Event.storeEffect 0 1 (Val.num 0) 0]

/-- An `EpsilonGreedyStrategy` with constant schedule value 1/2. -/
def cStrategy : EpsilonGreedyStrategy := { schedule := fun _ => 1/2, sampleDraw := 9 }

/-- A 3-step rollout with equal per-field lengths. -/
def cRollout3 : Rollout :=
  { observations := [1, 2, 3], actions := [4, 5, 6], rewards := [1, 1, 1],
    dones := [false, false, true], logprobs := [0, 0, 0], envInfos := [[], [], []] }

/-- A 2-step rollout. -/
def cRolloutA : Rollout :=
  { observations := [1, 2], actions := [1, 2], rewards := [1, 1],
    dones := [false, true], logprobs := [0, 0], envInfos := [[], []] }

/-- Another 2-step rollout. -/
def cRolloutB : Rollout :=
  { observations := [8, 9], actions := [3, 4], rewards := [0, 1],
    dones := [false, true], logprobs := [0, 0], envInfos := [[], []] }

/-- A loader over three files of which file 1 is corrupt. -/
def cLoader : Nat → Option (List Rollout) :=
  fun f => if f = 1 then none else if f = 0 then some [cRolloutA] else some [cRolloutB]

/-- A sampler with one empty pool (for bulk-ingest scenarios). -/
def cS2 : SamplerState :=
  { nEnvs := 1, pools := [cPoolEmpty], vecEnv := cVecEnv, currObservations := [] }

/-- A sampler with two empty pools (for the round-robin scenario). -/
def cS2b : SamplerState :=
  { nEnvs := 2, pools := [cPoolEmpty, cPoolEmpty], vecEnv := cVecEnv, currObservations := [] }

/-- The single file used in the round-robin scenario. -/
def cFiles5 : List (List Rollout) := [[cRolloutA, cRolloutB, cRollout3]]

/-- The third `store_rollout` call of the round-robin scenario. -/
def cCall5 : StoreCall := { poolIdx := 0, startIndex := 4, rollout := cRollout3 }


/-- The pool `Sampler.__init__` creates for `n_envs = 1`. -/
def initPool (size hlen : Nat) : ReplayPool :=
  { capacity := size / 1, obsHistoryLen := hlen, steps := [], pending := none,
    storedRollouts := [] }

/-- The state `Sampler.__init__` returns for `n_envs = 1`. -/
def initState (env : VecEnv) (size hlen : Nat) : SamplerState :=
  { nEnvs := 1, pools := List.replicate 1 (initPool size hlen), vecEnv := env,
    currObservations := [] }

/-! Helper lemmas. -/

theorem trash_foldl (pools : List ReplayPool) (n : Nat) (l : List ReplayPool) :
    pools.foldl (fun acc p =>
        let r := p.trash_current_rollout
        (acc.1 + r.1, acc.2 ++ [r.2])) (n, l) =
      (n + (pools.map fun p => (p.trash_current_rollout).1).sum,
       l ++ pools.map fun p => (p.trash_current_rollout).2) := by
  induction pools generalizing n l with
  | nil => simp
  | cons p ps ih =>
    simp only [List.foldl_cons, List.map_cons, List.sum_cons, ih]
    refine Prod.ext ?_ ?_
    · simp [Nat.add_assoc]
    · simp

/-- C6: `Sampler.trash_current_rollouts` returns the sum over all replay
pools of each pool's `trash_current_rollout` count; in particular, trashing
after 7 un-terminated live steps returns 7 and restores the pool to its
pre-ingest state. -/
theorem c6_trash_sum (s : SamplerState) :
    (Sampler.trash_current_rollouts s).1 =
      (s.pools.map fun p => (p.trash_current_rollout).1).sum ∧
    (Sampler.trash_current_rollouts cState7).1 = 7 ∧
    (Sampler.trash_current_rollouts cState7).2.pools = [cPoolEmpty] := by
  refine ⟨?_, by decide, by decide⟩
  show (s.pools.foldl _ ((0 : Nat), ([] : List ReplayPool))).1 = _
  rw [trash_foldl]
  simp

/-- C8: `add_exploration` returns a fresh action-space sample exactly when the
uniform draw is below the schedule's value at `t`, otherwise the given action
unchanged, and `reset` leaves the strategy unchanged. -/
theorem c8_epsilon_greedy (s : EpsilonGreedyStrategy) (r : ℚ) (t : Nat) (a : Act) :
    (r < s.schedule t → s.add_exploration r t a = s.sampleDraw) ∧
    (¬ r < s.schedule t → s.add_exploration r t a = a) ∧
    s.reset = s := by
  refine ⟨fun h => ?_, fun h => ?_, rfl⟩ <;>
    simp [EpsilonGreedyStrategy.add_exploration, h]

/-- Witness for C8 at the constant-1/2 schedule: a draw of 1/4 explores, a
draw of 3/4 keeps the action, and `reset` is the identity. -/
theorem c8_epsilon_greedy_witness :
    cStrategy.add_exploration (1/4) 0 5 = cStrategy.sampleDraw ∧
    cStrategy.add_exploration (3/4) 0 5 = 5 ∧
    cStrategy.reset = cStrategy :=
  ⟨(c8_epsilon_greedy cStrategy (1/4) 0 5).1 (by norm_num [cStrategy]),
   (c8_epsilon_greedy cStrategy (3/4) 0 5).2.1 (by norm_num [cStrategy]),
   (c8_epsilon_greedy cStrategy (3/4) 0 5).2.2⟩

/-- C9: `Sampler.can_sample` is true iff at least one replay pool reports
`can_sample`, and false iff every pool reports false. -/
theorem c9_can_sample (f : ReplayPool → Bool) (s : SamplerState) :
    (Sampler.can_sample f s = true ↔ ∃ p ∈ s.pools, f p = true) ∧
    (Sampler.can_sample f s = false ↔ ∀ p ∈ s.pools, f p = false) := by
  constructor
  · simp [Sampler.can_sample, List.any_eq_true]
  · simp [Sampler.can_sample, List.any_eq_false]

/-- Witness for C9: with the constantly-true predicate `cState` can sample,
with the constantly-false predicate it cannot. -/
theorem c9_can_sample_witness :
    Sampler.can_sample (fun _ => true) cState = true ∧
    Sampler.can_sample (fun _ => false) cState = false :=
  ⟨(c9_can_sample (fun _ => true) cState).1.mpr ⟨cPoolEmpty, by decide, rfl⟩,
   (c9_can_sample (fun _ => false) cState).2.mpr fun p _ => rfl⟩

theorem openEpisodeObs_markLastDone (l : List StoredStep) :
    openEpisodeObs (markLastDone l) = [] := by
  unfold markLastDone
  cases hl : l.reverse with
  | nil => simp [openEpisodeObs]
  | cons s rest => simp [openEpisodeObs]

theorem mem_lastFrames_single (h : Nat) (o x : Obs) (hx : x ∈ lastFrames h [o]) :
    x = 0 ∨ x = o := by
  unfold lastFrames at hx
  rcases List.mem_append.1 hx with h1 | h2
  · exact Or.inl (List.eq_of_mem_replicate h1)
  · exact Or.inr (by simpa using List.mem_of_mem_drop h2)

/-- C7: `Sampler.reset` records the fresh reset observations as the current
observations, applies `force_done` to every replay pool, and afterwards the
encoded history view of any newly stored observation contains only padding or
that new observation — it never bleeds frames from before the reset. -/
theorem c7_reset (s : SamplerState) :
    (Sampler.reset s).currObservations = s.vecEnv.resetFn ∧
    (Sampler.reset s).pools = s.pools.map ReplayPool.force_done ∧
    (∀ p, p ∈ (Sampler.reset s).pools → ∀ idx o x,
      x ∈ (p.store_observation idx o).encode_recent_observation → x = 0 ∨ x = o) := by
  refine ⟨rfl, rfl, ?_⟩
  intro p hp idx o x hx
  rcases List.mem_map.1 hp with ⟨q, _, rfl⟩
  apply mem_lastFrames_single q.obsHistoryLen o x
  simpa [ReplayPool.store_observation, ReplayPool.encode_recent_observation,
    ReplayPool.force_done, openEpisodeObs_markLastDone] using hx

/-- Witness for C7 at `cState`: the reset observations are recorded and the
first history view after the reset holds only padding and the new frame. -/
theorem c7_reset_witness :
    (Sampler.reset cState).currObservations = cState.vecEnv.resetFn ∧
    ((9 : Obs) = 0 ∨ (9 : Obs) = 9) :=
  ⟨(c7_reset cState).1,
   (c7_reset cState).2.2 (ReplayPool.force_done cPoolEmpty) (by decide) 3 9 9 (by decide)⟩

theorem storeObsPhase_phase (stepIdx : Nat) :
    ∀ (l : List (ReplayPool × Obs)) (i0 : Nat),
      ∀ e ∈ (storeObsPhase stepIdx i0 l).2.2, eventPhase e = 0 := by
  intro l
  induction l with
  | nil => intro i0 e he; simp [storeObsPhase] at he
  | cons po rest ih =>
    intro i0 e he
    rcases po with ⟨p, o⟩
    simp only [storeObsPhase, List.mem_cons] at he
    rcases he with h1 | h1 | h1
    · subst h1; rfl
    · subst h1; rfl
    · exact ih (i0 + 1) e h1

theorem storeObsPhase_mem (stepIdx : Nat) :
    ∀ (l : List (ReplayPool × Obs)) (i0 j : Nat), j < l.length →
      ∃ o, Event.storeObservation (i0 + j) (stepIdx + (i0 + j)) o ∈
        (storeObsPhase stepIdx i0 l).2.2 := by
  intro l
  induction l with
  | nil => intro i0 j hj; simp at hj
  | cons po rest ih =>
    intro i0 j hj
    rcases po with ⟨p, o⟩
    cases j with
    | zero => exact ⟨o, by simp [storeObsPhase]⟩
    | succ j =>
      obtain ⟨o2, ho2⟩ := ih (i0 + 1) j (by simpa using hj)
      refine ⟨o2, ?_⟩
      have hidx : i0 + 1 + j = i0 + (j + 1) := by omega
      rw [hidx] at ho2
      simp only [storeObsPhase, List.mem_cons]
      exact Or.inr (Or.inr ho2)

theorem storeEffects_phase :
    ∀ (ps : List ReplayPool) (i : Nat) (as : List Act) (rs : List ℚ) (ds : List Bool)
      (es : List Info) (vs : List Val) (lps : List ℚ),
      ∀ e ∈ (storeEffects i ps as rs ds es vs lps).2, eventPhase e = 0 + 4 := by
  intro ps
  induction ps with
  | nil =>
    intro i as rs ds es vs lps e he
    cases as <;> cases rs <;> cases ds <;> cases es <;> cases vs <;> cases lps <;>
      simp [storeEffects] at he
  | cons p ps ih =>
    intro i as rs ds es vs lps e he
    cases as with
    | nil => simp [storeEffects] at he
    | cons a as =>
      cases rs with
      | nil => simp [storeEffects] at he
      | cons r rs =>
        cases ds with
        | nil => simp [storeEffects] at he
        | cons d ds =>
          cases es with
          | nil => simp [storeEffects] at he
          | cons e2 es =>
            cases vs with
            | nil => simp [storeEffects] at he
            | cons v vs =>
              cases lps with
              | nil => simp [storeEffects] at he
              | cons lp lps =>
                simp only [storeEffects, List.mem_cons] at he
                rcases he with h1 | h1
                · subst h1; rfl
                · exact ih (i + 1) as rs ds es vs lps e h1

theorem storeEffects_mem (j : Nat) (a : Act) (v : Val) (lp : ℚ) :
    ∀ (ps : List ReplayPool) (i : Nat) (as : List Act) (rs : List ℚ) (ds : List Bool)
      (es : List Info) (vs : List Val) (lps : List ℚ),
      Event.storeEffect j a v lp ∈ (storeEffects i ps as rs ds es vs lps).2 →
      i ≤ j ∧ as[j - i]? = some a ∧ vs[j - i]? = some v ∧ lps[j - i]? = some lp := by
  intro ps
  induction ps with
  | nil =>
    intro i as rs ds es vs lps he
    cases as <;> cases rs <;> cases ds <;> cases es <;> cases vs <;> cases lps <;>
      simp [storeEffects] at he
  | cons p ps ih =>
    intro i as rs ds es vs lps he
    cases as with
    | nil => simp [storeEffects] at he
    | cons a0 as =>
      cases rs with
      | nil => simp [storeEffects] at he
      | cons r rs =>
        cases ds with
        | nil => simp [storeEffects] at he
        | cons d ds =>
          cases es with
          | nil => simp [storeEffects] at he
          | cons e2 es =>
            cases vs with
            | nil => simp [storeEffects] at he
            | cons v0 vs =>
              cases lps with
              | nil => simp [storeEffects] at he
              | cons lp0 lps =>
                simp only [storeEffects, List.mem_cons, Event.storeEffect.injEq] at he
                rcases he with ⟨hj, ha, hv, hlp⟩ | h1
                · subst hj; subst ha; subst hv; subst hlp
                  simp
                · obtain ⟨hij, ha, hv, hlp⟩ := ih (i + 1) as rs ds es vs lps h1
                  have hji : j - i = (j - (i + 1)) + 1 := by omega
                  rw [hji]
                  simp only [List.getElem?_cons_succ]
                  exact ⟨by omega, ha, hv, hlp⟩

/-- The shape of the event trace of a non-raising `Sampler.step` call: the
observation/encoding events, then the action selection, then the environment
step, then (when some environment reported done) the notify-on-done, then the
effect-storing events. -/
theorem step_ok_shape (policy : Policy) (log : ℚ → ℚ) (s : SamplerState) (stepIdx : Nat)
    (tra explore : Bool) (s2 : SamplerState) (tr : List Event)
    (h : Sampler.step policy log s stepIdx tra explore = Except.ok (s2, tr)) :
    ∃ (dn : Bool) (effEvents : List Event),
      tr = (storeObsPhase stepIdx 0 (s.pools.zip s.currObservations)).2.2 ++
          [Event.getActions, Event.envStep] ++
          (if dn then [Event.resetGetAction] else []) ++ effEvents ∧
      ∀ e ∈ effEvents, eventPhase e = 0 + 4 := by
  simp only [Sampler.step] at h
  cases hc : chooseActions policy log s stepIdx tra explore
      (storeObsPhase stepIdx 0 (s.pools.zip s.currObservations)).2.1 with
  | error e => rw [hc] at h; simp at h
  | ok x =>
    obtain ⟨actions, estValues, logprobs, actionInfos⟩ := x
    rw [hc] at h
    simp only [Except.ok.injEq, Prod.mk.injEq] at h
    obtain ⟨-, htr⟩ := h
    refine ⟨(s.vecEnv.stepFn actions).2.2.1.any id,
      (storeEffects 0
        ((storeObsPhase stepIdx 0 (s.pools.zip s.currObservations)).1 ++
          List.drop (s.pools.zip s.currObservations).length s.pools)
        actions (s.vecEnv.stepFn actions).2.1 (s.vecEnv.stepFn actions).2.2.1
        (updateInfos (s.vecEnv.stepFn actions).2.2.2 actionInfos) estValues logprobs).2,
      ?_, ?_⟩
    · rw [← htr]
    · exact storeEffects_phase _ 0 _ _ _ _ _ _

theorem sorted_le_of_forall_eq (l : List Nat) (c : Nat) (h : ∀ x ∈ l, x = c) :
    l.Sorted (· ≤ ·) := by
  induction l with
  | nil => simp
  | cons a l ih =>
    rw [List.sorted_cons]
    constructor
    · intro b hb
      rw [h a (List.mem_cons_self a l), h b (List.mem_cons_of_mem a hb)]
    · exact ih fun x hx => h x (List.mem_cons_of_mem a hx)

theorem sorted_append_le (l1 l2 : List Nat) (c : Nat)
    (h1 : l1.Sorted (· ≤ ·)) (h2 : l2.Sorted (· ≤ ·))
    (hb1 : ∀ x ∈ l1, x ≤ c) (hb2 : ∀ y ∈ l2, c ≤ y) : (l1 ++ l2).Sorted (· ≤ ·) := by
  show List.Pairwise _ _
  rw [List.pairwise_append]
  exact ⟨h1, h2, fun x hx y hy => le_trans (hb1 x hx) (hb2 y hy)⟩

/-- C1 counterexample: in a concrete one-environment tick whose environment
reports done, both a notify-on-done and an effect-store event occur, yet the
trace is not ordered by the phases the claim describes (effects stored before
the notify): `reset_get_action` is invoked before the effects are stored. -/
theorem c1_counterexample :
    Event.resetGetAction ∈ stepTrace cPolicy cLog cState 0 false true ∧
    Event.storeEffect 0 1 (Val.num 0) 0 ∈ stepTrace cPolicy cLog cState 0 false true ∧
    ¬ ((stepTrace cPolicy cLog cState 0 false true).map claimedPhase).Sorted (· ≤ ·) := by
  refine ⟨by decide, by decide, ?_⟩
  intro hs
  have h45 : claimedPhase Event.resetGetAction ≤ claimedPhase (Event.storeEffect 0 1 (Val.num 0) 0) := by
    have := List.pairwise_append.1
      (show ((([Event.storeObservation 0 0 7, Event.encodeRecent 0, Event.getActions,
          Event.envStep, Event.resetGetAction]).map claimedPhase) ++
          ([Event.storeEffect 0 1 (Val.num 0) 0].map claimedPhase)).Pairwise (· ≤ ·) from hs)
    exact this.2.2 _ (by decide) _ (by decide)
  exact absurd h45 (by decide)

/-- C1 amended: each `Sampler.step` tick performs, in order: per-environment
observation storing and history encoding, action selection, environment
stepping, the notify-on-done (when some environment reported done), and only
then the effect storing — i.e. `reset_get_action` is invoked after the
environments are stepped and before the effects are stored. -/
theorem c1_step_order (policy : Policy) (log : ℚ → ℚ) (s : SamplerState) (stepIdx : Nat)
    (tra explore : Bool) (s2 : SamplerState) (tr : List Event)
    (h : Sampler.step policy log s stepIdx tra explore = Except.ok (s2, tr)) :
    (tr.map eventPhase).Sorted (· ≤ ·) ∧ Event.getActions ∈ tr ∧ Event.envStep ∈ tr := by
  obtain ⟨dn, eff, htr, heff⟩ := step_ok_shape policy log s stepIdx tra explore s2 tr h
  subst htr
  refine ⟨?_, by simp, by simp⟩
  simp only [List.map_append]
  have hA : ∀ x ∈ (storeObsPhase stepIdx 0 (s.pools.zip s.currObservations)).2.2.map eventPhase,
      x = 0 := by
    intro x hx
    rcases List.mem_map.1 hx with ⟨e, he, rfl⟩
    exact storeObsPhase_phase stepIdx _ 0 e he
  have hE : ∀ x ∈ eff.map eventPhase, x = 4 := by
    intro x hx
    rcases List.mem_map.1 hx with ⟨e, he, rfl⟩
    exact heff e he
  have hD : ∀ x ∈ (if dn then [Event.resetGetAction] else []).map eventPhase, x = 3 := by
    cases dn <;> simp [eventPhase]
  have hM : ∀ x ∈ [Event.getActions, Event.envStep].map eventPhase, 1 ≤ x ∧ x ≤ 2 := by decide
  apply sorted_append_le _ _ 4
  · apply sorted_append_le _ _ 3
    · apply sorted_append_le _ _ 1
      · exact sorted_le_of_forall_eq _ 0 hA
      · decide
      · intro x hx
        have := hA x hx
        omega
      · intro y hy
        exact (hM y hy).1
    · cases dn <;> simp
    · intro x hx
      rcases List.mem_append.1 hx with h1 | h1
      · have := hA x h1
        omega
      · have := hM x h1
        omega
    · intro y hy
      have := hD y hy
      omega
  · exact sorted_le_of_forall_eq _ 4 hE
  · intro x hx
    rcases List.mem_append.1 hx with h1 | h1
    · rcases List.mem_append.1 h1 with h2 | h2
      · have := hA x h2
        omega
      · have := hM x h2
        omega
    · have := hD x h1
      omega
  · intro y hy
    have := hE y hy
    omega

/-- Witness for C1 (amended) on the concrete one-environment tick. -/
theorem c1_step_order_witness :
    ((cTrace.map eventPhase).Sorted (· ≤ ·)) ∧
    Event.getActions ∈ cTrace ∧ Event.envStep ∈ cTrace :=
  c1_step_order cPolicy cLog cState 0 false true cStateAfter cTrace rfl

/-- C4 counterexample: constructing a `Sampler` over `k = 2` parallel
environments raises (the constructor asserts `n_envs == 1`), so the claim's
"for every k ≥ 1" fails at `k = 2`. -/
theorem c4_counterexample :
    Sampler.init cVecEnv 2 100 2 = Except.error SamplerError.assertionError := rfl

/-- C4 amended: for `k ≥ 1`, construction succeeds exactly when `k = 1` (the
constructor asserts `n_envs == 1`); on success there is exactly one replay
pool per environment, each of capacity `replay_pool_size // k`, and a step
after reset stores one observation per environment slot. -/
theorem c4_init (env : VecEnv) (k size hlen : Nat) (hk : 1 ≤ k) :
    ((∃ s, Sampler.init env k size hlen = Except.ok s) ↔ k = 1) ∧
    (∀ s, Sampler.init env k size hlen = Except.ok s →
      s.nEnvs = k ∧ s.pools.length = k ∧ ∀ p ∈ s.pools, p.capacity = size / k) ∧
    (∀ s, Sampler.init env k size hlen = Except.ok s → env.resetFn.length = k →
      ∀ (policy : Policy) (log : ℚ → ℚ) (stepIdx : Nat) (explore : Bool)
        (s2 : SamplerState) (tr : List Event),
        Sampler.step policy log (Sampler.reset s) stepIdx false explore = Except.ok (s2, tr) →
        ∀ j, j < k → ∃ o, Event.storeObservation j (stepIdx + j) o ∈ tr) := by
  by_cases hk1 : k = 1
  · subst hk1
    have hok : Sampler.init env 1 size hlen = Except.ok (initState env size hlen) := rfl
    refine ⟨by simp [hok], ?_, ?_⟩
    · intro s hs
      rw [hok] at hs
      obtain rfl : initState env size hlen = s := by simpa using hs
      refine ⟨rfl, by simp [initState], ?_⟩
      intro p hp
      have hp2 : p = initPool size hlen := by simpa [initState] using hp
      subst hp2
      rfl
    · intro s hs hres policy log stepIdx explore s2 tr hstep j hj
      rw [hok] at hs
      obtain rfl : initState env size hlen = s := by simpa using hs
      have hj0 : j = 0 := by omega
      subst hj0
      obtain ⟨o, ho⟩ := List.length_eq_one.1 hres
      obtain ⟨dn, eff, htr, -⟩ := step_ok_shape _ _ _ _ _ _ _ _ hstep
      subst htr
      have hzlen : (((Sampler.reset (initState env size hlen)).pools).zip
          ((Sampler.reset (initState env size hlen)).currObservations)).length = 1 := by
        simp [Sampler.reset, initState, ho]
      obtain ⟨o2, ho2⟩ := storeObsPhase_mem stepIdx _ 0 0 (by rw [hzlen]; omega)
      exact ⟨o2, List.mem_append.2 (Or.inl (List.mem_append.2 (Or.inl
        (List.mem_append.2 (Or.inl ho2)))))⟩
  · have herr : Sampler.init env k size hlen = Except.error SamplerError.assertionError := by
      simp [Sampler.init, hk1]
    refine ⟨?_, ?_, ?_⟩
    · constructor
      · rintro ⟨s, hs⟩
        rw [herr] at hs
        simp at hs
      · intro h1
        exact absurd h1 hk1
    · intro s hs
      rw [herr] at hs
      simp at hs
    · intro s hs
      rw [herr] at hs
      simp at hs

/-- Witness for C4 (amended) at `k = 1`, pool size 100, history length 2. -/
theorem c4_init_witness :
    (∃ s, Sampler.init cVecEnv 1 100 2 = Except.ok s) ∧
    (cInit1.nEnvs = 1 ∧ cInit1.pools.length = 1 ∧ ∀ p ∈ cInit1.pools, p.capacity = 100 / 1) ∧
    (∃ o, Event.storeObservation 0 (0 + 0) o ∈ cTrace4) := by
  have h := c4_init cVecEnv 1 100 2 (by decide)
  have hinit : Sampler.init cVecEnv 1 100 2 = Except.ok cInit1 := rfl
  have hres : cVecEnv.resetFn.length = 1 := rfl
  have hstep : Sampler.step cPolicy cLog (Sampler.reset cInit1) 0 false true =
      Except.ok (cState4After, cTrace4) := rfl
  exact ⟨h.1.mpr rfl, h.2.1 cInit1 hinit,
    h.2.2 cInit1 hinit hres cPolicy cLog 0 true cState4After cTrace4 hstep 0 (by decide)⟩

theorem chooseActions_random (policy : Policy) (log : ℚ → ℚ) (s : SamplerState) (stepIdx : Nat)
    (explore : Bool) (encoded : List (List Obs))
    (hne : s.vecEnv.actionSpace ≠ ActionSpace.other) :
    chooseActions policy log s stepIdx true explore encoded =
      Except.ok ((List.range s.nEnvs).map s.vecEnv.sampleFn,
        List.replicate s.nEnvs Val.nan,
        List.replicate s.nEnvs (uniformRandomLogprob log s.vecEnv.actionSpace),
        List.replicate s.nEnvs ([] : Info)) := by
  cases hsp : s.vecEnv.actionSpace with
  | other => exact absurd hsp hne
  | discrete d => simp [chooseActions, hsp]
  | box low high => simp [chooseActions, hsp]

/-- C10: with `take_random_actions`, every environment's stored action is the
action space's `sample()` draw for its slot, every stored `est_value` is NaN,
every stored logprob is the uniform log-density of the action space
(`-log(flat_dim)` for `Discrete`, `-Σ log(high - low)` for `Box`, per
`uniformRandomLogprob`), and for any other action-space type the call raises
`NotImplementedError`. -/
theorem c10_random_actions (policy : Policy) (log : ℚ → ℚ) (s : SamplerState) (stepIdx : Nat)
    (explore : Bool) :
    (s.vecEnv.actionSpace = ActionSpace.other →
      Sampler.step policy log s stepIdx true explore =
        Except.error SamplerError.notImplementedError) ∧
    (∀ s2 tr, Sampler.step policy log s stepIdx true explore = Except.ok (s2, tr) →
      s.vecEnv.actionSpace ≠ ActionSpace.other ∧
      ∀ j a v lp, Event.storeEffect j a v lp ∈ tr →
        a = s.vecEnv.sampleFn j ∧ v = Val.nan ∧
        lp = uniformRandomLogprob log s.vecEnv.actionSpace) := by
  constructor
  · intro hsp
    simp [Sampler.step, chooseActions, hsp]
  · intro s2 tr h
    by_cases hsp : s.vecEnv.actionSpace = ActionSpace.other
    · rw [show Sampler.step policy log s stepIdx true explore =
          Except.error SamplerError.notImplementedError from by
            simp [Sampler.step, chooseActions, hsp]] at h
      simp at h
    · refine ⟨hsp, ?_⟩
      intro j a v lp hmem
      simp only [Sampler.step] at h
      rw [chooseActions_random policy log s stepIdx explore _ hsp] at h
      simp only [Except.ok.injEq, Prod.mk.injEq] at h
      obtain ⟨-, htr⟩ := h
      subst htr
      rcases List.mem_append.1 hmem with h1 | h1
      · rcases List.mem_append.1 h1 with h2 | h2
        · rcases List.mem_append.1 h2 with h3 | h3
          · have := storeObsPhase_phase stepIdx _ 0 _ h3
            simp [eventPhase] at this
          · simp at h3
        · split at h2 <;> simp at h2
      · obtain ⟨-, ha, hv, hlp⟩ := storeEffects_mem j a v lp _ 0 _ _ _ _ _ _ h1
        simp only [Nat.sub_zero] at ha hv hlp
        rw [List.getElem?_replicate] at hv hlp
        by_cases hjn : j < s.nEnvs
        · rw [if_pos hjn] at hv hlp
          obtain rfl : Val.nan = v := by simpa using hv
          obtain rfl : uniformRandomLogprob log s.vecEnv.actionSpace = lp := by simpa using hlp
          rw [List.getElem?_map, List.getElem?_range hjn] at ha
          obtain rfl : s.vecEnv.sampleFn j = a := by simpa using ha
          exact ⟨rfl, rfl, rfl⟩
        · rw [if_neg hjn] at hv
          exact absurd hv (by simp)

/-- Witness for C10: the unsupported space raises, and on the `Discrete(3)`
space the stored effect of environment 0 is the sampled action with NaN value
and the uniform log-density. -/
theorem c10_random_actions_witness :
    Sampler.step cPolicy cLog cStateOther 0 true true =
      Except.error SamplerError.notImplementedError ∧
    ((2 : Act) = cState.vecEnv.sampleFn 0 ∧ Val.nan = Val.nan ∧
      (0 : ℚ) = uniformRandomLogprob cLog cState.vecEnv.actionSpace) := by
  have h2 := (c10_random_actions cPolicy cLog cState 0 true).2 cStateAfterR cTraceR rfl
  exact ⟨(c10_random_actions cPolicy cLog cStateOther 0 true).1 rfl,
    h2.2 0 2 Val.nan 0 (by decide)⟩

theorem addRolloutsInFile_counters (k : Nat) (m : Option Nat) :
    ∀ (rs : List Rollout) (p0 st0 : Nat),
      (addRolloutsInFile k m rs p0 st0).2.1 = p0 + (addRolloutsInFile k m rs p0 st0).1.length ∧
      (addRolloutsInFile k m rs p0 st0).2.2.1 =
        st0 + ((addRolloutsInFile k m rs p0 st0).1.map callLen).sum := by
  intro rs
  induction rs with
  | nil => intro p0 st0; simp [addRolloutsInFile]
  | cons r rs ih =>
    intro p0 st0
    cases m with
    | none =>
      obtain ⟨ih1, ih2⟩ := ih (p0 + 1) (st0 + r.dones.length)
      simp only [addRolloutsInFile]
      constructor
      · simp only [List.length_cons]
        omega
      · simp only [List.map_cons, List.sum_cons, callLen]
        omega
    | some m0 =>
      by_cases htr : m0 ≤ st0 + r.dones.length
      · simp only [addRolloutsInFile, if_pos htr]
        constructor
        · simp
        · simp [callLen]
      · obtain ⟨ih1, ih2⟩ := ih (p0 + 1) (st0 + r.dones.length)
        simp only [addRolloutsInFile, if_neg htr]
        constructor
        · simp only [List.length_cons]
          omega
        · simp only [List.map_cons, List.sum_cons, callLen]
          omega

theorem addRolloutsFiles_counters (k : Nat) (m : Option Nat) :
    ∀ (fs : List (List Rollout)) (p0 st0 : Nat),
      (addRolloutsFiles k m fs p0 st0).2.1 =
        st0 + ((addRolloutsFiles k m fs p0 st0).1.map callLen).sum := by
  intro fs
  induction fs with
  | nil => intro p0 st0; simp [addRolloutsFiles]
  | cons f fs ih =>
    intro p0 st0
    obtain ⟨-, h2⟩ := addRolloutsInFile_counters k m f p0 st0
    simp only [addRolloutsFiles]
    by_cases hdone : (addRolloutsInFile k m f p0 st0).2.2.2 = true
    · rw [if_pos hdone]
      simpa using h2
    · rw [if_neg hdone]
      have ih2 := ih (addRolloutsInFile k m f p0 st0).2.1 (addRolloutsInFile k m f p0 st0).2.2.1
      dsimp only
      simp only [List.map_append, List.sum_append]
      omega

theorem addRolloutsInFile_calls (k : Nat) (m : Option Nat) :
    ∀ (rs : List Rollout) (p0 st0 j : Nat) (c : StoreCall),
      (addRolloutsInFile k m rs p0 st0).1[j]? = some c →
      c.poolIdx = (p0 + j) % k ∧
      c.startIndex = st0 + (((addRolloutsInFile k m rs p0 st0).1.take j).map callLen).sum := by
  intro rs
  induction rs with
  | nil => intro p0 st0 j c hc; simp [addRolloutsInFile] at hc
  | cons r rs ih =>
    intro p0 st0 j c hc
    cases m with
    | none =>
      simp only [addRolloutsInFile] at hc ⊢
      cases j with
      | zero =>
        obtain rfl : (⟨p0 % k, st0, r⟩ : StoreCall) = c := by simpa using hc
        simp
      | succ j =>
        rw [List.getElem?_cons_succ] at hc
        obtain ⟨hpi, hsi⟩ := ih (p0 + 1) (st0 + r.dones.length) j c hc
        constructor
        · rw [hpi]
          congr 1
          omega
        · rw [hsi]
          simp only [List.take_succ_cons, List.map_cons, List.sum_cons, callLen]
          omega
    | some m0 =>
      by_cases htr : m0 ≤ st0 + r.dones.length
      · simp only [addRolloutsInFile, if_pos htr] at hc ⊢
        cases j with
        | zero =>
          obtain rfl : (⟨p0 % k, st0, trimRollout ((m0 : Int) - (st0 : Int)) r⟩ : StoreCall) = c := by
            simpa using hc
          simp
        | succ j =>
          rw [List.getElem?_cons_succ] at hc
          simp at hc
      · simp only [addRolloutsInFile, if_neg htr] at hc ⊢
        cases j with
        | zero =>
          obtain rfl : (⟨p0 % k, st0, r⟩ : StoreCall) = c := by simpa using hc
          simp
        | succ j =>
          rw [List.getElem?_cons_succ] at hc
          obtain ⟨hpi, hsi⟩ := ih (p0 + 1) (st0 + r.dones.length) j c hc
          constructor
          · rw [hpi]
            congr 1
            omega
          · rw [hsi]
            simp only [List.take_succ_cons, List.map_cons, List.sum_cons, callLen]
            omega

theorem addRolloutsFiles_calls (k : Nat) (m : Option Nat) :
    ∀ (fs : List (List Rollout)) (p0 st0 j : Nat) (c : StoreCall),
      (addRolloutsFiles k m fs p0 st0).1[j]? = some c →
      c.poolIdx = (p0 + j) % k ∧
      c.startIndex = st0 + (((addRolloutsFiles k m fs p0 st0).1.take j).map callLen).sum := by
  intro fs
  induction fs with
  | nil => intro p0 st0 j c hc; simp [addRolloutsFiles] at hc
  | cons f fs ih =>
    intro p0 st0 j c hc
    simp only [addRolloutsFiles] at hc ⊢
    by_cases hdone : (addRolloutsInFile k m f p0 st0).2.2.2 = true
    · rw [if_pos hdone] at hc ⊢
      exact addRolloutsInFile_calls k m f p0 st0 j c hc
    · rw [if_neg hdone] at hc ⊢
      dsimp only at hc ⊢
      rw [List.getElem?_append] at hc
      by_cases hj : j < (addRolloutsInFile k m f p0 st0).1.length
      · rw [if_pos hj] at hc
        obtain ⟨h1, h2⟩ := addRolloutsInFile_calls k m f p0 st0 j c hc
        refine ⟨h1, ?_⟩
        rw [h2, List.take_append_of_le_length (le_of_lt hj)]
      · rw [if_neg hj] at hc
        obtain ⟨h1, h2⟩ := ih (addRolloutsInFile k m f p0 st0).2.1
          (addRolloutsInFile k m f p0 st0).2.2.1
          (j - (addRolloutsInFile k m f p0 st0).1.length) c hc
        obtain ⟨hc1, hc2⟩ := addRolloutsInFile_counters k m f p0 st0
        constructor
        · rw [h1, hc1]
          congr 1
          omega
        · rw [h2, hc2, List.take_append_eq_append_take]
          have hall : (addRolloutsInFile k m f p0 st0).1.take j =
              (addRolloutsInFile k m f p0 st0).1 := by
            apply List.take_of_length_le
            omega
          rw [hall]
          simp only [List.map_append, List.sum_append]
          omega

/-- C5: during bulk ingest each `store_rollout` call receives a `start_index`
equal to the pre-existing pool contents plus the lengths of the rollouts
already added in the same call (so successive ranges are contiguous and
non-overlapping), and rollouts are assigned to the pools in cycling
(round-robin) order. -/
theorem c5_start_indices (s : SamplerState) (files : List (List Rollout)) (mta : Option Nat)
    (j : Nat) (c : StoreCall)
    (hc : (Sampler.add_rollouts s files mta).2[j]? = some c) :
    c.startIndex = (s.pools.map ReplayPool.len).sum +
      (((Sampler.add_rollouts s files mta).2.take j).map callLen).sum ∧
    c.poolIdx = j % s.pools.length := by
  have h := addRolloutsFiles_calls s.pools.length mta files 0
    ((s.pools.map ReplayPool.len).sum) j c (by simpa [Sampler.add_rollouts] using hc)
  constructor
  · simpa [Sampler.add_rollouts] using h.2
  · simpa using h.1

/-- Witness for C5: the third rollout of the round-robin scenario lands at
start index 4 (= 2 + 2 transitions already added) on pool `2 % 2 = 0`. -/
theorem c5_start_indices_witness :
    cCall5.startIndex = (cS2b.pools.map ReplayPool.len).sum +
      (((Sampler.add_rollouts cS2b cFiles5 none).2.take 2).map callLen).sum ∧
    cCall5.poolIdx = 2 % cS2b.pools.length :=
  c5_start_indices cS2b cFiles5 none 2 cCall5 (by decide)

theorem pythonTake_length_sub (m st0 : Nat) (hle : st0 ≤ m) {α : Type} (l : List α)
    (hlen : m - st0 ≤ l.length) :
    (pythonTake ((m : Int) - (st0 : Int)) l).length = m - st0 := by
  rw [pythonTake, if_pos (by omega : (0 : Int) ≤ (m : Int) - (st0 : Int))]
  rw [List.length_take]
  have h2 : ((m : Int) - (st0 : Int)).toNat = m - st0 := by omega
  rw [h2]
  exact inf_eq_left.2 hlen

theorem addRolloutsInFile_budget (k m : Nat) :
    ∀ (rs : List Rollout) (p0 st0 : Nat), st0 ≤ m →
      (addRolloutsInFile k (some m) rs p0 st0).2.2.1 ≤ m ∧
      ((addRolloutsInFile k (some m) rs p0 st0).2.2.2 = true →
        (addRolloutsInFile k (some m) rs p0 st0).2.2.1 = m) := by
  intro rs
  induction rs with
  | nil =>
    intro p0 st0 h
    constructor
    · simpa [addRolloutsInFile] using h
    · intro hfl
      simp [addRolloutsInFile] at hfl
  | cons r rs ih =>
    intro p0 st0 h
    by_cases htr : m ≤ st0 + r.dones.length
    · simp only [addRolloutsInFile, if_pos htr]
      have hlen : (trimRollout ((m : Int) - (st0 : Int)) r).dones.length = m - st0 := by
        simp only [trimRollout]
        exact pythonTake_length_sub m st0 h r.dones (by omega)
      rw [hlen]
      constructor
      · omega
      · intro _
        omega
    · obtain ⟨ih1, ih2⟩ := ih (p0 + 1) (st0 + r.dones.length) (by omega)
      simp only [addRolloutsInFile, if_neg htr]
      exact ⟨ih1, ih2⟩

theorem addRolloutsInFile_trimmed (k m : Nat) :
    ∀ (rs : List Rollout) (p0 st0 : Nat), st0 ≤ m → (∀ r ∈ rs, equalFieldLens r) →
      (addRolloutsInFile k (some m) rs p0 st0).2.2.2 = true →
      ∃ pre c, (addRolloutsInFile k (some m) rs p0 st0).1 = pre ++ [c] ∧
        c.startIndex ≤ m ∧
        c.rollout.observations.length = m - c.startIndex ∧
        c.rollout.actions.length = m - c.startIndex ∧
        c.rollout.rewards.length = m - c.startIndex ∧
        c.rollout.dones.length = m - c.startIndex ∧
        c.rollout.logprobs.length = m - c.startIndex := by
  intro rs
  induction rs with
  | nil =>
    intro p0 st0 h hwf hfl
    simp [addRolloutsInFile] at hfl
  | cons r rs ih =>
    intro p0 st0 h hwf hfl
    by_cases htr : m ≤ st0 + r.dones.length
    · obtain ⟨h1, h2, h3, h4⟩ := hwf r (List.mem_cons_self r rs)
      refine ⟨[], ⟨p0 % k, st0, trimRollout ((m : Int) - (st0 : Int)) r⟩, ?_, h, ?_, ?_, ?_, ?_, ?_⟩
      · simp only [addRolloutsInFile, if_pos htr]
        simp
      · exact pythonTake_length_sub m st0 h r.observations (by omega)
      · exact pythonTake_length_sub m st0 h r.actions (by omega)
      · exact pythonTake_length_sub m st0 h r.rewards (by omega)
      · exact pythonTake_length_sub m st0 h r.dones (by omega)
      · exact pythonTake_length_sub m st0 h r.logprobs (by omega)
    · simp only [addRolloutsInFile, if_neg htr]
      obtain ⟨pre, c, hpre, hrest⟩ := ih (p0 + 1) (st0 + r.dones.length) (by omega)
        (fun r2 hr2 => hwf r2 (List.mem_cons_of_mem r hr2)) (by simpa [addRolloutsInFile, if_neg htr] using hfl)
      exact ⟨⟨p0 % k, st0, r⟩ :: pre, c, by rw [hpre]; simp, hrest⟩

theorem addRolloutsFiles_budget (k m : Nat) :
    ∀ (fs : List (List Rollout)) (p0 st0 : Nat), st0 ≤ m →
      (addRolloutsFiles k (some m) fs p0 st0).2.1 ≤ m ∧
      ((addRolloutsFiles k (some m) fs p0 st0).2.2 = true →
        (addRolloutsFiles k (some m) fs p0 st0).2.1 = m) := by
  intro fs
  induction fs with
  | nil =>
    intro p0 st0 h
    constructor
    · simpa [addRolloutsFiles] using h
    · intro hfl
      simp [addRolloutsFiles] at hfl
  | cons f fs ih =>
    intro p0 st0 h
    obtain ⟨hb1, hb2⟩ := addRolloutsInFile_budget k m f p0 st0 h
    simp only [addRolloutsFiles]
    by_cases hdone : (addRolloutsInFile k (some m) f p0 st0).2.2.2 = true
    · rw [if_pos hdone]
      exact ⟨hb1, fun _ => hb2 hdone⟩
    · rw [if_neg hdone]
      dsimp only
      exact ih (addRolloutsInFile k (some m) f p0 st0).2.1
        (addRolloutsInFile k (some m) f p0 st0).2.2.1 hb1

theorem addRolloutsFiles_trimmed (k m : Nat) :
    ∀ (fs : List (List Rollout)) (p0 st0 : Nat), st0 ≤ m →
      (∀ f ∈ fs, ∀ r ∈ f, equalFieldLens r) →
      (addRolloutsFiles k (some m) fs p0 st0).2.2 = true →
      ∃ pre c, (addRolloutsFiles k (some m) fs p0 st0).1 = pre ++ [c] ∧
        c.startIndex ≤ m ∧
        c.rollout.observations.length = m - c.startIndex ∧
        c.rollout.actions.length = m - c.startIndex ∧
        c.rollout.rewards.length = m - c.startIndex ∧
        c.rollout.dones.length = m - c.startIndex ∧
        c.rollout.logprobs.length = m - c.startIndex := by
  intro fs
  induction fs with
  | nil =>
    intro p0 st0 h hwf hfl
    simp [addRolloutsFiles] at hfl
  | cons f fs ih =>
    intro p0 st0 h hwf hfl
    simp only [addRolloutsFiles] at hfl ⊢
    by_cases hdone : (addRolloutsInFile k (some m) f p0 st0).2.2.2 = true
    · rw [if_pos hdone] at hfl ⊢
      dsimp only
      exact addRolloutsInFile_trimmed k m f p0 st0 h
        (fun r hr => hwf f (List.mem_cons_self f fs) r hr) hdone
    · rw [if_neg hdone] at hfl ⊢
      dsimp only at hfl ⊢
      obtain ⟨pre, c, hpre, hrest⟩ := ih (addRolloutsInFile k (some m) f p0 st0).2.1
        (addRolloutsInFile k (some m) f p0 st0).2.2.1
        (addRolloutsInFile_budget k m f p0 st0 h).1
        (fun f2 hf2 => hwf f2 (List.mem_cons_of_mem f hf2)) hfl
      exact ⟨(addRolloutsInFile k (some m) f p0 st0).1 ++ pre, c,
        by rw [hpre, List.append_assoc], hrest⟩

/-- C2 counterexample: with budget `m = 2` and a single 3-step rollout, the
stored rollout's `dones` array is trimmed to length `2 = m - 0`, but its
`env_infos` array keeps length 3 — `env_infos` is not among the keys the code
slices, so not every per-field array is trimmed to the truncated length. -/
theorem c2_counterexample :
    ((Sampler.add_rollouts cS2 [[cRollout3]] (some 2)).2.map
      fun c => (c.startIndex, c.rollout.dones.length, c.rollout.envInfos.length)) =
      [(0, 2, 3)] := by
  decide

/-- C2 amended: when the pre-existing pool contents do not exceed the budget
`m` and the rollouts have equal per-field lengths, ingestion never stores more
than `m` total transitions; when the budget stops ingestion mid-file, the last
stored rollout is the triggering one with its five sliced arrays
(`observations`, `actions`, `rewards`, `dones`, `logprobs` — not `env_infos`)
trimmed to exactly `m` minus the steps already stored, and the total reaches
exactly `m`. -/
theorem c2_budget (s : SamplerState) (files : List (List Rollout)) (m : Nat)
    (hinit : (s.pools.map ReplayPool.len).sum ≤ m)
    (hwf : ∀ f ∈ files, ∀ r ∈ f, equalFieldLens r) :
    (s.pools.map ReplayPool.len).sum +
      (((Sampler.add_rollouts s files (some m)).2).map callLen).sum ≤ m ∧
    ((addRolloutsFiles s.pools.length (some m) files 0
        ((s.pools.map ReplayPool.len).sum)).2.2 = true →
      ∃ pre c, (Sampler.add_rollouts s files (some m)).2 = pre ++ [c] ∧
        c.rollout.observations.length = m - c.startIndex ∧
        c.rollout.actions.length = m - c.startIndex ∧
        c.rollout.rewards.length = m - c.startIndex ∧
        c.rollout.dones.length = m - c.startIndex ∧
        c.rollout.logprobs.length = m - c.startIndex ∧
        (s.pools.map ReplayPool.len).sum +
          (((Sampler.add_rollouts s files (some m)).2).map callLen).sum = m) := by
  have hcnt := addRolloutsFiles_counters s.pools.length (some m) files 0
    ((s.pools.map ReplayPool.len).sum)
  have hbud := addRolloutsFiles_budget s.pools.length m files 0
    ((s.pools.map ReplayPool.len).sum) hinit
  have heq : (Sampler.add_rollouts s files (some m)).2 =
      (addRolloutsFiles s.pools.length (some m) files 0
        ((s.pools.map ReplayPool.len).sum)).1 := rfl
  constructor
  · rw [heq]
    omega
  · intro hfl
    obtain ⟨pre, c, hpre, -, h1, h2, h3, h4, h5⟩ := addRolloutsFiles_trimmed s.pools.length m
      files 0 ((s.pools.map ReplayPool.len).sum) hinit hwf hfl
    refine ⟨pre, c, ?_, h1, h2, h3, h4, h5, ?_⟩
    · rw [heq, hpre]
    · rw [heq]
      have := hbud.2 hfl
      omega

/-- Witness for C2 (amended): budget 2 against one file holding one 3-step
rollout. -/
theorem c2_budget_witness :
    (cS2.pools.map ReplayPool.len).sum +
      (((Sampler.add_rollouts cS2 [[cRollout3]] (some 2)).2).map callLen).sum ≤ 2 ∧
    (∃ pre c, (Sampler.add_rollouts cS2 [[cRollout3]] (some 2)).2 = pre ++ [c] ∧
      c.rollout.observations.length = 2 - c.startIndex ∧
      c.rollout.actions.length = 2 - c.startIndex ∧
      c.rollout.rewards.length = 2 - c.startIndex ∧
      c.rollout.dones.length = 2 - c.startIndex ∧
      c.rollout.logprobs.length = 2 - c.startIndex ∧
      (cS2.pools.map ReplayPool.len).sum +
        (((Sampler.add_rollouts cS2 [[cRollout3]] (some 2)).2).map callLen).sum = 2) := by
  have h := c2_budget cS2 [[cRollout3]] 2 (by decide) (by decide)
  exact ⟨h.1, h.2 (by decide)⟩

theorem loadScan_spec (loader : Nat → Option (List Rollout)) :
    ∀ files : List Nat,
      (loadScan loader files).2.1 = files.countP (fun f => (loader f).isSome) ∧
      (loadScan loader files).2.2 = files.countP (fun f => (loader f).isNone) ∧
      (loadScan loader files).2.1 + (loadScan loader files).2.2 = files.length ∧
      (loadScan loader files).1 = files.foldr (fun f acc => ((loader f).getD []) ++ acc) [] := by
  intro files
  induction files with
  | nil => simp [loadScan]
  | cons f fs ih =>
    obtain ⟨ih1, ih2, ih3, ih4⟩ := ih
    cases hl : loader f with
    | none =>
      refine ⟨?_, ?_, ?_, ?_⟩
      · simp [loadScan, hl, List.countP_cons, ih1]
      · simp [loadScan, hl, List.countP_cons, ih2]
      · simp only [loadScan, hl, List.length_cons]
        omega
      · simp [loadScan, hl, ih4]
    | some rs =>
      refine ⟨?_, ?_, ?_, ?_⟩
      · simp [loadScan, hl, List.countP_cons, ih1]
      · simp [loadScan, hl, List.countP_cons, ih2]
      · simp only [loadScan, hl, List.length_cons]
        omega
      · simp [loadScan, hl, ih4]

theorem storeAll_spec :
    ∀ (rs : List Rollout) (cur : Nat),
      (storeAll cur rs).map Prod.snd = rs ∧
      ∀ (j : Nat) (e : Nat × Rollout), (storeAll cur rs)[j]? = some e →
        e.1 = cur + ((rs.take j).map fun r => r.dones.length).sum := by
  intro rs
  induction rs with
  | nil =>
    intro cur
    constructor
    · simp [storeAll]
    · intro j e he
      simp [storeAll] at he
  | cons r rs ih =>
    intro cur
    obtain ⟨ih1, ih2⟩ := ih (cur + r.dones.length)
    constructor
    · simp [storeAll, ih1]
    · intro j e he
      cases j with
      | zero =>
        obtain rfl : ((cur, r) : Nat × Rollout) = e := by simpa [storeAll] using he
        simp
      | succ j =>
        rw [show storeAll cur (r :: rs) = (cur, r) :: storeAll (cur + r.dones.length) rs from rfl,
          List.getElem?_cons_succ] at he
        rw [ih2 j e he]
        simp only [List.take_succ_cons, List.map_cons, List.sum_cons]
        omega

/-- C3: bulk loading counts every parseable file as a success and every
raising file as a failure while continuing (all files are examined), stores
exactly the rollouts of the parseable files at consecutive start indices, and
reports the ratio `100 * successes / (successes + failures)`; loading 3 files
of which file 1 is corrupt gives the ratio `200/3` (printed as 66.67%, i.e.
66.7% to one decimal) with both valid rollouts present. -/
theorem c3_load_data :
    (∀ (loader : Nat → Option (List Rollout)) (files : List Nat),
      (loadData loader files).2.1 = files.countP (fun f => (loader f).isSome) ∧
      (loadData loader files).2.2 = files.countP (fun f => (loader f).isNone) ∧
      (loadData loader files).2.1 + (loadData loader files).2.2 = files.length ∧
      (loadData loader files).1.map Prod.snd = (loadScan loader files).1 ∧
      (∀ (j : Nat) (e : Nat × Rollout), (loadData loader files).1[j]? = some e →
        e.1 = (((loadScan loader files).1.take j).map fun r => r.dones.length).sum) ∧
      reportedRatio loader files =
        100 * ((files.countP fun f => (loader f).isSome : Nat) : ℚ) / ((files.length : Nat) : ℚ)) ∧
    reportedRatio cLoader [0, 1, 2] = 200 / 3 ∧
    ⌊reportedRatio cLoader [0, 1, 2] * 10 + 1 / 2⌋ = 667 ∧
    (loadData cLoader [0, 1, 2]).1 = [(0, cRolloutA), (2, cRolloutB)] := by
  have hratio : reportedRatio cLoader [0, 1, 2] = 200 / 3 := by
    have hscan : loadScan cLoader [0, 1, 2] = ([cRolloutA, cRolloutB], 2, 1) := by decide
    unfold reportedRatio
    rw [hscan]
    norm_num
  refine ⟨?_, hratio, ?_, by decide⟩
  · intro loader files
    obtain ⟨h1, h2, h3, h4⟩ := loadScan_spec loader files
    obtain ⟨hs1, hs2⟩ := storeAll_spec (loadScan loader files).1 0
    refine ⟨h1, h2, h3, hs1, ?_, ?_⟩
    · intro j e he
      have := hs2 j e he
      omega
    · simp only [reportedRatio]
      rw [h1, h2]
      rw [show ((files.countP fun f => (loader f).isSome : Nat) : ℚ) +
          ((files.countP fun f => (loader f).isNone : Nat) : ℚ) = ((files.length : Nat) : ℚ) from by
        rw [h1, h2] at h3
        exact_mod_cast h3]
  · rw [hratio]
    rw [Int.floor_eq_iff]
    constructor
    · norm_num
    · norm_num

/-- Witness for C3: in the 3-file scenario the second stored entry starts at
index 2, the length of the rollout stored before it. -/
theorem c3_load_data_witness :
    ((2 : Nat), cRolloutB).1 =
      (((loadScan cLoader [0, 1, 2]).1.take 1).map fun r => r.dones.length).sum :=
  (c3_load_data.1 cLoader [0, 1, 2]).2.2.2.2.1 1 (2, cRolloutB) (by decide)
